import Mathlib

/-!
Verification of the housewise rule-based line normalization and classification
engine.  The TypeScript sources are shallowly embedded: JS strings become
`List Char`, JS numbers become `ℚ` (every modeled value is a finite rational;
`NaN`/`±∞` have no representative, so `Number.isFinite` is modeled as the
constant `true`), and the two concrete regular expressions of the engine
(`EURO_AMOUNT_REGEX` and the word-boundary flag tests) are embedded as
backtracking matchers specialised to those exact patterns.

On `Number.isFinite`: in the amount-token path the parsed value is kept as an
exact rational and the finiteness of the corresponding double is modeled
explicitly (`doubleFinite`): IEEE round-to-nearest sends any magnitude of at
least `2^1024 - 2^970` to `Infinity`, which `Number.isFinite` rejects.  In
the reconciliation path every modeled record value is a finite rational, so
there `Number.isFinite` is the constant `true` (`jsIsFinite`).
-/

set_option autoImplicit false
set_option maxRecDepth 40000

namespace Housewise

abbrev Str := List Char

/-- Convert a Lean string literal to the `List Char` representation used by the
embedding. -/
def strL (s : String) : Str := s.data

/-- Model of the JS `\s` class restricted to the whitespace characters that
occur in the repository inputs and dictionaries (space, tab, LF, CR). -/
def isWs (c : Char) : Bool := c = ' ' || c = '\t' || c = '\n' || c = '\r'

/-- Model of JS `String.prototype.toLowerCase` on the ASCII and Latin-1
repertoire used by the dictionaries and inputs. -/
def lowerChar (c : Char) : Char :=
  if 65 ≤ c.toNat ∧ c.toNat ≤ 90 then Char.ofNat (c.toNat + 32)
  else if 192 ≤ c.toNat ∧ c.toNat ≤ 222 ∧ c.toNat ≠ 215 then Char.ofNat (c.toNat + 32)
  else c

def lowerStr (cs : Str) : Str := cs.map lowerChar

/-- Model of `normalize("NFD")` followed by removal of `\p{Diacritic}` marks,
on the lowercase Latin repertoire of the dictionaries and inputs: each
accented letter decomposes into its base letter plus a combining mark, which
is then dropped.  Characters without a decomposition are unchanged. -/
def stripDiacritic (c : Char) : Char :=
  if c = 'à' ∨ c = 'á' ∨ c = 'â' ∨ c = 'ã' ∨ c = 'ä' ∨ c = 'å' then 'a'
  else if c = 'è' ∨ c = 'é' ∨ c = 'ê' ∨ c = 'ë' then 'e'
  else if c = 'ì' ∨ c = 'í' ∨ c = 'î' ∨ c = 'ï' then 'i'
  else if c = 'ò' ∨ c = 'ó' ∨ c = 'ô' ∨ c = 'õ' ∨ c = 'ö' then 'o'
  else if c = 'ù' ∨ c = 'ú' ∨ c = 'û' ∨ c = 'ü' then 'u'
  else if c = 'ç' then 'c'
  else if c = 'ñ' then 'n'
  else if c = 'ý' ∨ c = 'ÿ' then 'y'
  else c

/-- Helper for `collapseWs`: `prevWs` records whether the previous character
was whitespace, so that a run of whitespace is emitted as a single space. -/
def collapseWsAux (prevWs : Bool) : Str → Str
  | [] => []
  | c :: rest =>
    if isWs c then
      if prevWs then collapseWsAux true rest else ' ' :: collapseWsAux true rest
    else c :: collapseWsAux false rest

/-- Model of `.replace(/\s+/g, " ")`: every maximal whitespace run becomes a
single space. -/
def collapseWs (cs : Str) : Str := collapseWsAux false cs

/-- Model of `String.prototype.trim`. -/
def trimStr (cs : Str) : Str :=
  ((cs.dropWhile isWs).reverse.dropWhile isWs).reverse

/-- `normalizeSpaces` from `src/lib/utils/strings`
(`input.replace(/\s+/g, " ").trim()`). -/
def normalizeSpaces (cs : Str) : Str := trimStr (collapseWs cs)

/-- JS `String.prototype.includes` on the `List Char` representation. -/
def strIncludes (hay needle : Str) : Bool :=
  if needle.isPrefixOf hay then true
  else
    match hay with
    | [] => false
    | _ :: t => strIncludes t needle

/-- Split on the single character `' '`, as `normalized.split(" ")` does. -/
def splitOnSpace : Str → List Str
  | [] => [[]]
  | c :: t =>
    if c = ' ' then [] :: splitOnSpace t
    else
      match splitOnSpace t with
      | [] => [[c]]
      | w :: ws => (c :: w) :: ws

/-- Model of `.replace(/[.,;:]+$/, "")`: strip one trailing run of the listed
punctuation characters. -/
def stripTrailingPunct (cs : Str) : Str :=
  (cs.reverse.dropWhile (fun c => c = '.' || c = ',' || c = ';' || c = ':')).reverse

/-- `truncateWords` from `src/lib/utils/strings`. -/
def truncateWords (input : Str) (maxWords : ℕ) : Str :=
  let normalized := normalizeSpaces input
  if normalized.isEmpty || maxWords == 0 then []
  else
    let words := splitOnSpace normalized
    if words.length ≤ maxWords then normalized
    else
      let snippet := List.intercalate [' '] (words.take maxWords)
      stripTrailingPunct snippet ++ ['…']

/-- `OntologiaEnum` from `src/lib/normalize/ontology.ts`. -/
inductive Category where
  | demolizioni_smaltimenti
  | impianto_elettrico
  | impianto_idrico_sanitario
  | impianto_termico_riscaldamento_caldaia
  | gas
  | pavimenti_rivestimenti_massetti
  | bagno_forniture_sanitari_rubinetteria
  | cucina_lavori_idrici_elettrici
  | porte_interne
  | serramenti_infissi
  | pittura_cartongesso_controssoffitti
  | pratiche_tecniche_permessi_dico
  | condizionamento_ventilazione
  | impianto_fotovoltaico_pannelli
  | batteria_accumulo
  | inverter_fotovoltaico
  | pratiche_autorizzative_fotovoltaico_gse
  | pompe_di_calore
  | altri_extra
  | unknown
  deriving DecidableEq, Repr

/-- `ALL_CATEGORIES` from `src/lib/normalize/ontology.ts`; the same list, in
the same order, as `Object.values(OntologiaEnum)` (`CATEGORY_VALUES` in
`src/lib/analytics.ts` and `CATEGORIES` in the normalize route). -/
def CATEGORY_VALUES : List Category :=
  [ .demolizioni_smaltimenti
  , .impianto_elettrico
  , .impianto_idrico_sanitario
  , .impianto_termico_riscaldamento_caldaia
  , .gas
  , .pavimenti_rivestimenti_massetti
  , .bagno_forniture_sanitari_rubinetteria
  , .cucina_lavori_idrici_elettrici
  , .porte_interne
  , .serramenti_infissi
  , .pittura_cartongesso_controssoffitti
  , .pratiche_tecniche_permessi_dico
  , .condizionamento_ventilazione
  , .impianto_fotovoltaico_pannelli
  , .batteria_accumulo
  , .inverter_fotovoltaico
  , .pratiche_autorizzative_fotovoltaico_gse
  , .pompe_di_calore
  , .altri_extra
  , .unknown ]

/-- `CATEGORY_KEYWORDS` from `src/lib/analytics.ts` (rules module). -/
def CATEGORY_KEYWORDS : Category → List Str
  | .demolizioni_smaltimenti =>
      [ strL "demolizione", strL "demolizioni", strL "smaltimento", strL "macerie"
      , strL "rimozione", strL "scarico", strL "trasporto in discarica"
      , strL "abbattimento", strL "strip out", strL "taglio", strL "carico a discarica" ]
  | .impianto_elettrico =>
      [ strL "impianto elettrico", strL "quadro elettrico", strL "punti luce"
      , strL "linee elettriche", strL "salvavita", strL "cavi", strL "corrugati"
      , strL "prese", strL "frutti", strL "impianto di terra", strL "cavidotti"
      , strL "cassetta derivazione" ]
  | .impianto_idrico_sanitario =>
      [ strL "impianto idrico", strL "sanitari", strL "scarichi", strL "tubazioni acqua"
      , strL "multistrato", strL "collettore", strL "scarico wc", strL "scarico lavabo"
      , strL "sifone", strL "acqua calda", strL "acqua fredda" ]
  | .impianto_termico_riscaldamento_caldaia =>
      [ strL "riscaldamento", strL "caldaia", strL "termico", strL "radiatori"
      , strL "termosifoni", strL "valvole", strL "cronotermostato"
      , strL "pannelli radianti", strL "circolatore", strL "impianto termico" ]
  | .gas =>
      [ strL "impianto gas", strL "tubazioni gas", strL "valvola gas"
      , strL "prova tenuta gas", strL "contatore gas", strL "allaccio gas" ]
  | .pavimenti_rivestimenti_massetti =>
      [ strL "posa", strL "pavimento", strL "pavimenti", strL "rivestimenti"
      , strL "piastrelle", strL "gres", strL "massetto", strL "battiscopa"
      , strL "laminato", strL "parquet", strL "rasopietra", strL "sottofondo" ]
  | .bagno_forniture_sanitari_rubinetteria =>
      [ strL "fornitura sanitari", strL "rubinetteria", strL "box doccia", strL "wc"
      , strL "bidet", strL "lavabo", strL "piatto doccia", strL "mobile bagno"
      , strL "scarico doccia", strL "set bagno" ]
  | .cucina_lavori_idrici_elettrici =>
      [ strL "cucina", strL "attacchi", strL "gas cucina", strL "lavello"
      , strL "lavastoviglie", strL "predisposizione cucina", strL "forno"
      , strL "piano cottura", strL "schienale" ]
  | .porte_interne =>
      [ strL "porte interne", strL "controtelai", strL "cerniere", strL "maniglie"
      , strL "sostituzione porte", strL "porta tamburata", strL "anta" ]
  | .serramenti_infissi =>
      [ strL "infissi", strL "serramenti", strL "doppi vetri", strL "telaio"
      , strL "monoblocco", strL "cassonetto", strL "vetrocamera", strL "oscuro"
      , strL "persiane" ]
  | .pittura_cartongesso_controssoffitti =>
      [ strL "pittura", strL "imbiancatura", strL "rasatura", strL "cartongesso"
      , strL "controsoffitto", strL "stuccatura", strL "finitura"
      , strL "tinteggiatura", strL "intonaco" ]
  | .pratiche_tecniche_permessi_dico =>
      [ strL "dichiarazione di conformita", strL "dico", strL "cila", strL "scia"
      , strL "pratiche", strL "collaudo", strL "agibilita", strL "asseverazione"
      , strL "direzione lavori" ]
  | .condizionamento_ventilazione =>
      [ strL "climatizzatore", strL "condizionatore", strL "split"
      , strL "predisposizione clima", strL "ventilazione", strL "unità interna"
      , strL "unità esterna", strL "aria condizionata", strL "canalizzato" ]
  | .impianto_fotovoltaico_pannelli =>
      [ strL "fotovoltaico", strL "pannelli", strL "moduli", strL "kwp"
      , strL "stringa", strL "campo fv", strL "campo fotovoltaico", strL "impianto fv" ]
  | .batteria_accumulo =>
      [ strL "accumulo", strL "batteria", strL "sistema di accumulo", strL "storage"
      , strL "kwh", strL "modulo batterie" ]
  | .inverter_fotovoltaico =>
      [ strL "inverter", strL "inverter ibrido", strL "mppt", strL "convertitore" ]
  | .pratiche_autorizzative_fotovoltaico_gse =>
      [ strL "gse", strL "terna", strL "pratiche connessione", strL "pratica gse"
      , strL "gaudi", strL "e-distribuzione", strL "enel distribuzione"
      , strL "richiesta connessione" ]
  | .pompe_di_calore =>
      [ strL "pompa di calore", strL "pdc", strL "unità esterna", strL "unità interna"
      , strL "monoblocco", strL "split pdc", strL "sistema aria acqua" ]
  | .altri_extra =>
      [ strL "extra", strL "varie ed eventuali", strL "opere accessorie"
      , strL "diverse", strL "opere complementari" ]
  | .unknown => []

/-- `EXCLUSION_TOKENS` from `src/lib/analytics.ts`. -/
def EXCLUSION_TOKENS : List Str :=
  [strL "escluso", strL "non incluso", strL "a carico del cliente"]

/-- `normalizeForMatching` from `src/lib/analytics.ts`: lowercase, strip
diacritics (NFD), replace every character outside `[a-z0-9\s.\-]` by a space,
collapse whitespace runs and trim. -/
def normalizeForMatching (cs : Str) : Str :=
  let s1 := cs.map lowerChar
  let s2 := s1.map stripDiacritic
  let s3 := s2.map fun c =>
    if ('a' ≤ c ∧ c ≤ 'z') ∨ c.isDigit ∨ isWs c = true ∨ c = '.' ∨ c = '-' then c else ' '
  trimStr (collapseWs s3)

/-- `countKeywordHits` from `src/lib/analytics.ts`. -/
def countKeywordHits (text : Str) (keywords : List Str) : ℕ :=
  keywords.foldl
    (fun hits keyword =>
      if keyword.isEmpty then hits
      else
        let normalizedKeyword := normalizeForMatching keyword
        if normalizedKeyword.isEmpty then hits
        else if strIncludes text normalizedKeyword then hits + 1 else hits)
    0

/-- The loop body of `findLikelyCategory`: keep the best `(category, hits)`
pair, skipping categories with an empty keyword list, and replacing the best
only on a strictly greater hit count. -/
def bestStep (normalizedLine : Str) (acc : Category × ℕ) (c : Category) : Category × ℕ :=
  if (CATEGORY_KEYWORDS c).isEmpty then acc
  else
    let hits := countKeywordHits normalizedLine (CATEGORY_KEYWORDS c)
    if acc.2 < hits then (c, hits) else acc

/-- `findLikelyCategory` from `src/lib/analytics.ts`. -/
def findLikelyCategory (line : Str) : Category × ℕ :=
  let normalizedLine := normalizeForMatching line
  if normalizedLine.isEmpty then (.unknown, 0)
  else
    let best := CATEGORY_VALUES.foldl (bestStep normalizedLine) (.unknown, 0)
    (if 0 < best.2 then best.1 else .unknown, best.2)

/-- `hasAnyToken` from `src/lib/analytics.ts`. -/
def hasAnyToken (line : Str) (tokens : List Str) : Bool :=
  if line.isEmpty then false
  else
    let normalizedLine := normalizeForMatching line
    tokens.any fun token =>
      let normalizedToken := normalizeForMatching token
      if normalizedToken.isEmpty then false else strIncludes normalizedLine normalizedToken

/-- Model of `Number(x.toFixed(2))`: round to the nearest hundredth, ties
rounded to the larger value as ECMA `toFixed` prescribes (Mathlib `round`
is `⌊x + 1/2⌋`, which matches). -/
def toFixed2 (x : ℚ) : ℚ := ((round (100 * x) : ℤ) : ℚ) / 100

/-- `computeConfidence` from `src/lib/analytics.ts` (the two fields of its
record argument become two parameters). -/
def computeConfidence (keywordHits : ℕ) (hasAmount : Bool) : ℚ :=
  let keywordBonus := min (0.3 : ℚ) ((keywordHits : ℚ) * 0.15)
  let amountBonus : ℚ := if hasAmount then 0.2 else 0
  let score := 0.5 + keywordBonus + amountBonus
  min 1 (max 0 (toFixed2 score))

/-- Case-insensitive literal prefix test, as the `i`-flagged regexes perform. -/
def ciHasPrefixL (pat cs : Str) : Bool := (cs.take pat.length).map lowerChar == pat

/-- The `(?:[\.\s]\d{3})*` part of `EURO_AMOUNT_REGEX`: greedily consume
separator-plus-three-digit groups; returns the consumed characters and the
rest. -/
def thousandReps : Str → Str × Str
  | a :: b :: c :: d :: t =>
    if (a = '.' ∨ isWs a = true) ∧ b.isDigit ∧ c.isDigit ∧ d.isDigit then
      let (more, r) := thousandReps t
      (a :: b :: c :: d :: more, r)
    else ([], a :: b :: c :: d :: t)
  | cs => ([], cs)

/-- The `(?:[\.,]\d{2})?` part of `EURO_AMOUNT_REGEX`. -/
def decimalTail : Str → Str × Str
  | p :: a :: b :: t =>
    if (p = '.' ∨ p = ',') ∧ a.isDigit ∧ b.isDigit then ([p, a, b], t)
    else ([], p :: a :: b :: t)
  | cs => ([], cs)

/-- The capturing group of `EURO_AMOUNT_REGEX`.  Its first alternative
`\d{1,3}(?:[\.\s]\d{3})*(?:[\.,]\d{2})?` succeeds whenever a digit is next
(the quantifiers are greedy and everything after `\d{1,3}` is optional), so
the second alternative `\d+(?:[\.,]\d{2})?` is never reached by the
backtracking engine. -/
def matchGroup (cs : Str) : Option (Str × Str) :=
  let run := cs.takeWhile Char.isDigit
  if run.isEmpty then none
  else
    let d1 := run.take 3
    let rest1 := cs.drop d1.length
    let tr := thousandReps rest1
    let dt := decimalTail tr.2
    some (d1 ++ tr.1 ++ dt.1, dt.2)

/-- The trailing `(?:\s*(?:€|eur|euro))?` of `EURO_AMOUNT_REGEX`: consumed
only when a currency marker follows the whitespace run, otherwise the
optional group matches empty and consumes nothing. -/
def afterGroup (cs : Str) : Str :=
  let cs4 := cs.dropWhile isWs
  if ciHasPrefixL (strL "€") cs4 then cs4.drop 1
  else if ciHasPrefixL (strL "eur") cs4 then cs4.drop 3
  else if ciHasPrefixL (strL "euro") cs4 then cs4.drop 4
  else cs

/-- Attempt `EURO_AMOUNT_REGEX` at the current position after a currency
prefix of `n` characters: `\s*` then the capturing group, then the optional
currency suffix.  Returns the captured token and the rest of the input. -/
def tryWithPrefixLen (n : ℕ) (cs : Str) : Option (Str × Str) :=
  let cs1 := cs.drop n
  let cs2 := cs1.dropWhile isWs
  match matchGroup cs2 with
  | some (tok, r) => some (tok, afterGroup r)
  | none => none

/-- Anchored attempt of `EURO_AMOUNT_REGEX` at the current position, trying
the alternatives of the optional prefix `(?:€|eur|euro)?` in the backtracking
order of the engine (€, eur, euro, absent). -/
def tryHere (cs : Str) : Option (Str × Str) :=
  match (if ciHasPrefixL (strL "€") cs then tryWithPrefixLen 1 cs else none) with
  | some x => some x
  | none =>
    match (if ciHasPrefixL (strL "eur") cs then tryWithPrefixLen 3 cs else none) with
    | some x => some x
    | none =>
      match (if ciHasPrefixL (strL "euro") cs then tryWithPrefixLen 4 cs else none) with
      | some x => some x
      | none => tryWithPrefixLen 0 cs

/-- The scan loop of `line.matchAll(EURO_AMOUNT_REGEX)`: find the leftmost
match, record its captured group, continue after the match.  `fuel` bounds
the number of steps; every step either consumes the whole match (at least
one character) or advances one position, so `cs.length` steps suffice. -/
def scanAux : ℕ → Str → List Str
  | 0, _ => []
  | _ + 1, [] => []
  | fuel + 1, c :: t =>
    match tryHere (c :: t) with
    | some (tok, rest) => tok :: scanAux fuel rest
    | none => scanAux fuel t

/-- All captured numeric tokens of `line.matchAll(EURO_AMOUNT_REGEX)`. -/
def scanTokens (line : Str) : List Str := scanAux line.length line

/-- The `.replace(/eur|euro/gi, "")` step: the alternative `eur` is tried
first and is a prefix of `euro`, so the scanner always removes `eur` and
continues after it. -/
def removeEurWords : Str → Str
  | [] => []
  | [c] => [c]
  | [c, c2] => [c, c2]
  | c :: c2 :: c3 :: rest =>
    if lowerChar c = 'e' ∧ lowerChar c2 = 'u' ∧ lowerChar c3 = 'r' then removeEurWords rest
    else c :: removeEurWords (c2 :: c3 :: rest)

/-- Lookahead of `/\.(?=\d{3}(?:[\.,]|$))/`: three digits followed by a dot,
a comma or the end of the string. -/
def thousandLookahead : Str → Bool
  | a :: b :: c :: t =>
    a.isDigit && b.isDigit && c.isDigit &&
      (match t with
       | [] => true
       | x :: _ => x = '.' || x = ',')
  | _ => false

/-- The `.replace(/\.(?=\d{3}(?:[\.,]|$))/g, "")` step: drop a dot that is a
thousands separator; the lookahead is not consumed. -/
def removeThousandDots : Str → Str
  | [] => []
  | c :: rest =>
    if c = '.' ∧ thousandLookahead rest then removeThousandDots rest
    else c :: removeThousandDots rest

/-- Digit-string value, most significant digit first. -/
def digitsToNat (cs : Str) : ℕ :=
  cs.foldl (fun n c => 10 * n + (c.toNat - 48)) 0

/-- The syntactic part of JS `Number.parseFloat` on the alphabet reachable
here (digits, `.`, `-`): skip whitespace, optional sign, integer digits,
optional dot and fractional digits; anything after is ignored; `none`
(JS `NaN`) when no digit was read.  Returns `(negative, integer digits,
fractional digits)`.  `parseSign` handles the optional leading sign. -/
def parseSign (cs : Str) : Bool × Str :=
  match cs with
  | [] => (false, [])
  | c :: t => if c = '-' then (true, t) else if c = '+' then (false, t) else (false, c :: t)

def parseFloatParts (cs : Str) : Option (Bool × Str × Str) :=
  let cs0 := cs.dropWhile isWs
  let signed := parseSign cs0
  let intPart := signed.2.takeWhile Char.isDigit
  let rest := signed.2.drop intPart.length
  let fracPart :=
    match rest with
    | '.' :: t => t.takeWhile Char.isDigit
    | _ => []
  if intPart.isEmpty && fracPart.isEmpty then none
  else some (signed.1, intPart, fracPart)

/-- The numeric value of the parts returned by `parseFloatParts`. -/
def partsVal (neg : Bool) (intPart fracPart : Str) : ℚ :=
  let mag : ℚ := (digitsToNat intPart : ℚ) + (digitsToNat fracPart : ℚ) / ((10 : ℚ) ^ fracPart.length)
  if neg then -mag else mag

/-- Model of JS `Number.parseFloat` (value level). -/
def parseFloatQ (cs : Str) : Option ℚ :=
  match parseFloatParts cs with
  | none => none
  | some (neg, intPart, fracPart) => some (partsVal neg intPart fracPart)

/-- The string-cleaning chain of `normalizeAmountToken` (the six `replace`
steps of the source, before `Number.parseFloat`). -/
def cleanAmountToken (raw : Str) : Str :=
  let s1 := raw.filter (fun c => !(c = '€'))
  let s2 := removeEurWords s1
  let s3 := s2.filter (fun c => !(isWs c))
  let s4 := removeThousandDots s3
  let s5 := s4.map (fun c => if c = ',' then '.' else c)
  s5.filter (fun c => c.isDigit || c = '.' || c = '-')

/-- Model of `Number.isFinite` applied to the double produced by
`Number.parseFloat` from a decimal literal of exact value `q`: IEEE
round-to-nearest-even maps a magnitude of at least `2^1024 - 2^970` (the
midpoint above the largest finite double `2^1024 - 2^971`) to `Infinity`,
and every smaller magnitude to a finite double. -/
def doubleFinite (q : ℚ) : Bool := |q| < (2 : ℚ) ^ 1024 - 2 ^ 970

/-- `normalizeAmountToken` from `src/lib/analytics.ts`: clean the token,
`Number.parseFloat` it, and return the value only when `Number.isFinite`
accepts it (`NaN` — no digit parsed — is `none` from `parseFloatQ`; an
overflowing magnitude is rejected by `doubleFinite`). -/
def normalizeAmountToken (raw : Str) : Option ℚ :=
  match parseFloatQ (cleanAmountToken raw) with
  | none => none
  | some value => if doubleFinite value then some value else none

/-- The accumulator update of `extractEuroAmount`: `maxAmount` starts `null`
and is replaced when the candidate is strictly greater. -/
def maxStep (acc : Option ℚ) (a : ℚ) : Option ℚ :=
  match acc with
  | none => some a
  | some m => if m < a then some a else some m

/-- `extractEuroAmount` from `src/lib/analytics.ts`. -/
def extractEuroAmount (line : Str) : Option ℚ :=
  let ms := scanTokens line
  if ms.isEmpty then none
  else
    ms.foldl
      (fun acc tok =>
        match normalizeAmountToken tok with
        | none => acc
        | some amount => maxStep acc amount)
      none

/-- `toComparable` from the line-normalizer module: lowercase, NFD plus
diacritic removal, trim. -/
def toComparable (text : Str) : Str :=
  trimStr ((text.map lowerChar).map stripDiacritic)

/-- `DEMOLITION_CORE_KEYWORDS` from the line-normalizer module: the
demolition-category keywords without those matching `/smaltiment/i`, each
made comparable. -/
def DEMOLITION_CORE_KEYWORDS : List Str :=
  ((CATEGORY_KEYWORDS .demolizioni_smaltimenti).filter
    (fun keyword => !(strIncludes (lowerStr keyword) (strL "smaltiment")))).map toComparable

/-- `QUANTITY_TOKENS` from the line-normalizer module. -/
def QUANTITY_TOKENS : List Str :=
  [ strL "punti", strL "kwp", strL "kwh", strL "n.", strL "n°", strL "pz"
  , strL "pezzi", strL "nr", strL "punti luce", strL "metri", strL "mq"
  , strL "mt", strL "coppi" ]

/-- `PRATICHE_TOKENS` from the line-normalizer module. -/
def PRATICHE_TOKENS : List Str :=
  [ strL "pratica", strL "pratiche", strL "connessione", strL "gse", strL "terna"
  , strL "gaudi", strL "autorizzazione", strL "autorizzazioni"
  , strL "e-distribuzione", strL "enel distribuzione" ]

/-- `QUANTITY_SENSITIVE_CATEGORIES` from the line-normalizer module. -/
def QUANTITY_SENSITIVE_CATEGORIES : List Category :=
  [ .impianto_elettrico, .impianto_idrico_sanitario
  , .impianto_termico_riscaldamento_caldaia, .condizionamento_ventilazione
  , .impianto_fotovoltaico_pannelli, .inverter_fotovoltaico, .batteria_accumulo
  , .pompe_di_calore, .gas ]

/-- `PRATICHE_SENSITIVE_CATEGORIES` from the line-normalizer module. -/
def PRATICHE_SENSITIVE_CATEGORIES : List Category :=
  [ .impianto_fotovoltaico_pannelli, .inverter_fotovoltaico, .batteria_accumulo
  , .pompe_di_calore ]

/-- JS `\w` class (`[A-Za-z0-9_]`). -/
def isWordChar (c : Char) : Bool :=
  ('a' ≤ c && c ≤ 'z') || ('A' ≤ c && c ≤ 'Z') || c.isDigit || c = '_'

/-- A `\b` boundary holds against the adjacent character (or the edge of the
string) when that character is not a word character. -/
def boundaryOk : Option Char → Bool
  | none => true
  | some c => !(isWordChar c)

/-- The word `w` (made of word characters) matches at the head of `cs` with a
`\b` boundary after it. -/
def wordAtHead (w cs : Str) : Bool :=
  w.isPrefixOf cs && boundaryOk (cs.drop w.length).head?

/-- Helper for `wordOccurs`: `prev` is the character before the current
position (`none` at the start of the string). -/
def wordOccursAux (w : Str) (prev : Option Char) : Str → Bool
  | [] => boundaryOk prev && wordAtHead w []
  | c :: t => (boundaryOk prev && wordAtHead w (c :: t)) || wordOccursAux w (some c) t

/-- `\b<w>\b` occurs somewhere in `cs` (for `w` made of word characters). -/
def wordOccurs (w cs : Str) : Bool := wordOccursAux w none cs

/-- Model of `/\bforniture?\b/.test(s)`: with the optional `e` taken the
engine needs `\bforniture\b`, without it `\bfornitur\b`; it never accepts
`fornitura`, because after backtracking over `e?` the final `\b` sits between
two word characters. -/
def fornitureRegexTest (cs : Str) : Bool :=
  wordOccurs (strL "fornitur") cs || wordOccurs (strL "forniture") cs

/-- Model of `/(\bmarca\b|\bmodello\b)/.test(s)`. -/
def marcaModelloRegexTest (cs : Str) : Bool :=
  wordOccurs (strL "marca") cs || wordOccurs (strL "modello") cs

/-- `ensureUniqueFlags` (`[...new Set(flags)]`): keep the first occurrence of
each element, preserving order.  `seen` accumulates the values already kept. -/
def uniqueAux (seen : List Str) : List Str → List Str
  | [] => []
  | a :: t => if seen.contains a then uniqueAux seen t else a :: uniqueAux (a :: seen) t

def ensureUniqueFlags (flags : List Str) : List Str := uniqueAux [] flags

/-- `NormalizedItem` from `src/lib/types`.  The `crypto.randomUUID()` call is
an external fresh-identifier source; the embedding models the id as an
uninterpreted constant `0`, which no claim observes. -/
structure NormalizedItem where
  id : ℕ
  descrizione_originale : Str
  descrizione_normalizzata : Str
  categoria : Category
  importo_euro : Option ℚ
  flags : List Str
  confidence : ℚ
  deriving DecidableEq, Repr

/-- The per-line body of `normalizeLines`: `none` when the line is skipped
(empty or shorter than 3 characters after whitespace normalization). -/
def processLine (rawLine : Str) : Option NormalizedItem :=
  let cleaned := normalizeSpaces rawLine
  if cleaned.isEmpty || cleaned.length < 3 then none
  else
    let best := findLikelyCategory cleaned
    let category := best.1
    let hits := best.2
    let amount := extractEuroAmount cleaned
    let comparableLine := toComparable cleaned
    let lowerLine := lowerStr cleaned
    let f1 : List Str := if hasAnyToken cleaned EXCLUSION_TOKENS then [strL "esclusioni_presenti"] else []
    let f2 : List Str :=
      if category = .demolizioni_smaltimenti then
        let mentionsDemolition := DEMOLITION_CORE_KEYWORDS.any fun keyword => strIncludes comparableLine keyword
        let mentionsSmaltimento := strIncludes comparableLine (strL "smaltiment")
        if mentionsDemolition && !mentionsSmaltimento then [strL "smaltimento_non_menzionato"] else []
      else []
    let f3 : List Str :=
      if fornitureRegexTest lowerLine && !marcaModelloRegexTest lowerLine then
        [strL "marca_materiale_mancante"]
      else []
    let f4 : List Str :=
      if QUANTITY_SENSITIVE_CATEGORIES.contains category then
        let hasNumbers := cleaned.any Char.isDigit
        let hasQuantityToken := QUANTITY_TOKENS.any fun token => strIncludes lowerLine token
        if !hasNumbers && !hasQuantityToken then [strL "quantita_non_chiara"] else []
      else []
    let f5 : List Str :=
      if PRATICHE_SENSITIVE_CATEGORIES.contains category then
        let mentionsPratiche := PRATICHE_TOKENS.any fun token => strIncludes lowerLine token
        if !mentionsPratiche then [strL "pratiche_autorizzative_non_menzionate"] else []
      else []
    let flags := f1 ++ f2 ++ f3 ++ f4 ++ f5
    let descrizioneNormalizzata := truncateWords cleaned 15
    let confidence := computeConfidence hits (!(amount = none))
    some
      { id := 0
      , descrizione_originale := cleaned
      , descrizione_normalizzata := descrizioneNormalizzata
      , categoria := category
      , importo_euro := amount
      , flags := ensureUniqueFlags flags
      , confidence := confidence }

/-- `normalizeLines` from the line-normalizer module: every line either
yields one item or is skipped; order is preserved. -/
def normalizeLines (lines : List Str) : List NormalizedItem :=
  lines.filterMap processLine

/-- `AiNormalizedItem` from `app/api/ai/normalize/route.ts`, restricted to
the fields the reconciliation functions read.  `categoria` is typed, so a
present category is always a member of `CATEGORIES`. -/
structure AiItem where
  descrizione_originale : Option Str
  categoria : Option Category
  importo_euro : Option ℚ
  flags : Option (List Str)
  deriving DecidableEq

/-- `AiPerSourceSummary` from `app/api/ai/normalize/route.ts`.  An incomplete
`Record<string, number>` of AI-proposed totals is a function to `Option ℚ`
(`none` for an absent key, whose `Number(...)` coercion is `NaN`). -/
structure AiSummary where
  totali_per_categoria : Option (Category → Option ℚ)
  inclusioni_evidenti : Option (List Str)
  esclusioni_evidenti : Option (List Str)
  checklist_mancanze : Option (List Str)
  punti_ambigui : Option (List Str)
  stima_totale_documento : Option ℚ

/-- `AiStructuredResponse` from `app/api/ai/normalize/route.ts`, restricted
to the fields `reconcileSummary` reads. -/
structure AiStructured where
  items : List AiItem
  per_source_summary : AiSummary

/-- `Number.isFinite` on the embedded numbers: every modeled JS number is a
finite rational, so the test is constantly true (`NaN`/`±∞` are representable
only as the absence of a value, i.e. `none`, which never reaches this test). -/
def jsIsFinite (_x : ℚ) : Bool := true

/-- `makeEmptyTotals` from the route: every category starts at 0. -/
def makeEmptyTotals : Category → ℚ := fun _ => 0

/-- The loop body of `computeTotalsFromItems`: add `importo_euro` to the
category of the item when both the category and a finite numeric amount are
present. -/
def totalsStep (totals : Category → ℚ) (it : AiItem) : Category → ℚ :=
  match it.categoria with
  | none => totals
  | some cat =>
    match it.importo_euro with
    | none => totals
    | some value =>
      if jsIsFinite value then (fun x => if x = cat then totals cat + value else totals x)
      else totals

/-- `computeTotalsFromItems` from the route. -/
def computeTotalsFromItems (items : List AiItem) : Category → ℚ :=
  items.foldl totalsStep makeEmptyTotals

/-- `sumTotals` from the route: `Object.values(totals)` enumerates the
record keys in `CATEGORIES` order. -/
def sumTotals (totals : Category → ℚ) : ℚ :=
  (CATEGORY_VALUES.map totals).foldl (fun a b => a + (if jsIsFinite b then b else 0)) 0

/-- A lower-cased `descrizione_originale` of some item contains `needle`
(lowercased `descrizione_originale`, absent treated as empty, `includes` the needle). -/
def someDescrIncludes (items : List AiItem) (needle : Str) : Bool :=
  items.any fun i => strIncludes (lowerStr (i.descrizione_originale.getD [])) needle

/-- Some item carries the given flag (`(i.flags ?? []).includes(flag)`). -/
def someItemFlag (items : List AiItem) (flag : Str) : Bool :=
  items.any fun i => (i.flags.getD []).contains flag

/-- `enrichBulletsIfEmpty` from the route, as a pure function on the summary:
the heuristic bullets are appended only when the corresponding supplied list
is empty. -/
def enrichBulletsIfEmpty (summary : AiSummary) (items : List AiItem) : AiSummary :=
  let inclusioni := summary.inclusioni_evidenti.getD []
  let esclusioni := summary.esclusioni_evidenti.getD []
  let inclusioni2 :=
    if inclusioni.isEmpty then
      let i1 : List Str := if someDescrIncludes items (strL "smaltimento") then [strL "Smaltimento incluso"] else []
      let i2 := if someDescrIncludes items (strL "tinteggiatura") then i1 ++ [strL "Tinteggiatura inclusa"] else i1
      if someDescrIncludes items (strL "faretti") then i2 ++ [strL "Illuminazione/parete doccia inclusa"] else i2
    else inclusioni
  let esclusioni2 :=
    if esclusioni.isEmpty then
      let e1 : List Str := if someItemFlag items (strL "marca_materiale_mancante") then [strL "Marche/materiali non specificati"] else []
      if someItemFlag items (strL "quantita_non_chiara") then e1 ++ [strL "Quantità non definite con precisione"] else e1
    else esclusioni
  { summary with
    inclusioni_evidenti := some inclusioni2
    esclusioni_evidenti := some esclusioni2 }

/-- The per-category merge of `reconcileSummary`: prefer the computed value
when finite, else the finite AI value, else 0. -/
def mergeTotals (existing : Category → Option ℚ) (computed : Category → ℚ) : Category → ℚ :=
  fun category =>
    let computedValue := computed category
    if jsIsFinite computedValue then computedValue
    else
      match existing category with
      | some aiValue => if jsIsFinite aiValue then aiValue else 0
      | none => 0

/-- `reconcileSummary` from the route, returning the updated structure
instead of mutating it in place. -/
def reconcileSummary (structured : AiStructured) : AiStructured :=
  let items := structured.items
  let computedTotals := computeTotalsFromItems items
  let existingTotals := structured.per_source_summary.totali_per_categoria.getD (fun _ => none)
  let mergedTotals := mergeTotals existingTotals computedTotals
  let fixedTotal := sumTotals mergedTotals
  let s1 : AiSummary :=
    { totali_per_categoria := some (fun c => some (mergedTotals c))
    , inclusioni_evidenti := some (structured.per_source_summary.inclusioni_evidenti.getD [])
    , esclusioni_evidenti := some (structured.per_source_summary.esclusioni_evidenti.getD [])
    , checklist_mancanze := some (structured.per_source_summary.checklist_mancanze.getD [])
    , punti_ambigui := some (structured.per_source_summary.punti_ambigui.getD [])
    , stima_totale_documento := some fixedTotal }
  { structured with per_source_summary := enrichBulletsIfEmpty s1 items }

/-- The reconciled per-category total, read back from the summary record
(0 for an absent entry, which does not occur after reconciliation). -/
def summaryTotal (s : AiSummary) (c : Category) : ℚ :=
  match s.totali_per_categoria with
  | some f => (f c).getD 0
  | none => 0

/-- The sum of the amounts (`importo_euro`) of the items of category `c`,
`null` amounts contributing 0. -/
def catItemsSum (items : List AiItem) (c : Category) : ℚ :=
  (items.map fun it => if it.categoria = some c then it.importo_euro.getD 0 else 0).sum

/-- Keyword hits of one category against an already-normalized line. -/
def catHits (nl : Str) (c : Category) : ℕ :=
  countKeywordHits nl (CATEGORY_KEYWORDS c)

theorem toNat_bounds_of_isDigit {c : Char} (h : c.isDigit = true) :
    48 ≤ c.toNat ∧ c.toNat ≤ 57 := by
  simp only [Char.isDigit, ge_iff_le, Bool.and_eq_true, decide_eq_true_eq] at h
  refine ⟨UInt32.le_toNat_of_le (by decide) h.1, UInt32.toNat_le_of_le (by decide) h.2⟩

theorem lowerChar_digit {c : Char} (h : c.isDigit = true) : lowerChar c = c := by
  have hb := toNat_bounds_of_isDigit h
  rw [lowerChar, if_neg (by omega), if_neg (by omega)]

theorem not_isWs_of_isDigit {c : Char} (h : c.isDigit = true) : isWs c = false := by
  simp only [isWs, Bool.or_eq_false_iff, decide_eq_false_iff_not]
  refine ⟨⟨⟨?_, ?_⟩, ?_⟩, ?_⟩ <;> rintro rfl <;> simp at h

theorem ne_of_isDigit {c : Char} (d : Char) (hd : d.isDigit = false) (h : c.isDigit = true) :
    c ≠ d := by
  rintro rfl; rw [h] at hd; cases hd

theorem takeWhile_head {p : Char → Bool} {l a : Str} {c : Char}
    (h : l.takeWhile p = c :: a) : p c = true := by
  cases l with
  | nil => simp at h
  | cons x xs =>
    rw [List.takeWhile_cons] at h
    by_cases hp : p x = true
    · rw [if_pos hp] at h
      cases h; exact hp
    · rw [if_neg hp] at h; cases h

theorem bestStep_eq (nl : Str) (acc : Category × ℕ) (c : Category) :
    bestStep nl acc c = if acc.2 < catHits nl c then (c, catHits nl c) else acc := by
  rw [bestStep, catHits]
  by_cases h : (CATEGORY_KEYWORDS c).isEmpty
  · rw [if_pos h]
    rw [List.isEmpty_iff] at h
    rw [h]
    have h0 : countKeywordHits nl [] = 0 := rfl
    rw [h0, if_neg (Nat.not_lt_zero acc.2)]
  · rw [if_neg h]

theorem foldBest_snd_ge (nl : Str) :
    ∀ (ls : List Category) (acc : Category × ℕ), acc.2 ≤ (ls.foldl (bestStep nl) acc).2 := by
  intro ls
  induction ls with
  | nil => intro acc; exact le_refl _
  | cons a tl ih =>
    intro acc
    rw [List.foldl_cons]
    refine le_trans ?_ (ih (bestStep nl acc a))
    rw [bestStep_eq]
    split
    · exact le_of_lt (by assumption)
    · exact le_refl _

theorem foldBest_mem_le (nl : Str) :
    ∀ (ls : List Category) (acc : Category × ℕ) (c : Category), c ∈ ls →
      catHits nl c ≤ (ls.foldl (bestStep nl) acc).2 := by
  intro ls
  induction ls with
  | nil => intro acc c hc; cases hc
  | cons a tl ih =>
    intro acc c hc
    rw [List.foldl_cons]
    rcases List.mem_cons.mp hc with h | h
    · subst h
      refine le_trans ?_ (foldBest_snd_ge nl tl (bestStep nl acc c))
      rw [bestStep_eq]
      split
      · exact le_refl _
      · exact Nat.le_of_not_lt (by assumption)
    · exact ih (bestStep nl acc a) c h

theorem foldBest_const (nl : Str) :
    ∀ (ls : List Category) (acc : Category × ℕ),
      (∀ c ∈ ls, catHits nl c ≤ acc.2) → ls.foldl (bestStep nl) acc = acc := by
  intro ls
  induction ls with
  | nil => intro acc _; rfl
  | cons a tl ih =>
    intro acc hle
    rw [List.foldl_cons]
    have hstep : bestStep nl acc a = acc := by
      rw [bestStep_eq, if_neg (Nat.not_lt.mpr (hle a (List.mem_cons_self a tl)))]
    rw [hstep]
    exact ih acc fun c hc => hle c (List.mem_cons_of_mem a hc)

theorem foldBest_find (nl : Str) :
    ∀ (ls : List Category) (acc : Category × ℕ),
      acc.2 < (ls.foldl (bestStep nl) acc).2 →
      ls.find? (fun c => catHits nl c == (ls.foldl (bestStep nl) acc).2)
        = some (ls.foldl (bestStep nl) acc).1 := by
  intro ls
  induction ls with
  | nil => intro acc h; rw [List.foldl_nil] at h; exact absurd h (lt_irrefl _)
  | cons a tl ih =>
    intro acc h
    rw [List.foldl_cons] at h ⊢
    by_cases hlt : acc.2 < catHits nl a
    · have hstep : bestStep nl acc a = (a, catHits nl a) := by
        rw [bestStep_eq, if_pos hlt]
      rw [hstep] at h ⊢
      by_cases heq : catHits nl a = (tl.foldl (bestStep nl) (a, catHits nl a)).2
      · have hconst : tl.foldl (bestStep nl) (a, catHits nl a) = (a, catHits nl a) := by
          apply foldBest_const
          intro c hc
          have hle := foldBest_mem_le nl tl (a, catHits nl a) c hc
          rw [← heq] at hle
          exact hle
        rw [hconst, List.find?_cons]
        have hpa : (catHits nl a == (a, catHits nl a).2) = true := by simp
        rw [hpa]
      · have hle : catHits nl a ≤ (tl.foldl (bestStep nl) (a, catHits nl a)).2 :=
          foldBest_snd_ge nl tl (a, catHits nl a)
        have hlt2 : catHits nl a < (tl.foldl (bestStep nl) (a, catHits nl a)).2 :=
          lt_of_le_of_ne hle heq
        rw [List.find?_cons]
        have hpa : (catHits nl a == (tl.foldl (bestStep nl) (a, catHits nl a)).2) = false := by
          simp [heq]
        rw [hpa]
        exact ih (a, catHits nl a) hlt2
    · have hstep : bestStep nl acc a = acc := by rw [bestStep_eq, if_neg hlt]
      rw [hstep] at h ⊢
      have hha : catHits nl a ≤ acc.2 := Nat.le_of_not_lt hlt
      have hne : catHits nl a ≠ (tl.foldl (bestStep nl) acc).2 := by
        intro e
        rw [e] at hha
        exact absurd h (Nat.not_lt.mpr hha)
      rw [List.find?_cons]
      have hpa : (catHits nl a == (tl.foldl (bestStep nl) acc).2) = false := by simp [hne]
      rw [hpa]
      exact ih acc h

theorem countKeywordHits_zero (text : Str) (kws : List Str)
    (h : ∀ kw ∈ kws, normalizeForMatching kw ≠ [] →
      strIncludes text (normalizeForMatching kw) = false) :
    countKeywordHits text kws = 0 := by
  rw [countKeywordHits]
  suffices hgen : ∀ n : ℕ,
      kws.foldl
        (fun hits keyword =>
          if keyword.isEmpty then hits
          else
            let normalizedKeyword := normalizeForMatching keyword
            if normalizedKeyword.isEmpty then hits
            else if strIncludes text normalizedKeyword then hits + 1 else hits)
        n = n by
    exact hgen 0
  induction kws with
  | nil => intro n; rfl
  | cons kw tl ih =>
    intro n
    rw [List.foldl_cons]
    have htl := fun n => (ih (fun k hk => h k (List.mem_cons_of_mem kw hk)) n)
    by_cases h1 : kw.isEmpty
    · rw [if_pos h1]; exact htl n
    · rw [if_neg h1]
      by_cases h2 : (normalizeForMatching kw).isEmpty
      · simp only [if_pos h2]; exact htl n
      · have hne : normalizeForMatching kw ≠ [] := by
          intro e; rw [e] at h2; exact h2 rfl
        have hinc := h kw (List.mem_cons_self kw tl) hne
        simp only [if_neg h2, hinc, Bool.false_eq_true, if_false]
        exact htl n

theorem foldTok_eq (toks : List Str) (acc : Option ℚ) :
    toks.foldl
      (fun acc tok =>
        match normalizeAmountToken tok with
        | none => acc
        | some amount => maxStep acc amount)
      acc
      = (toks.filterMap normalizeAmountToken).foldl maxStep acc := by
  induction toks generalizing acc with
  | nil => rfl
  | cons t tl ih =>
    rw [List.foldl_cons, List.filterMap_cons]
    cases h : normalizeAmountToken t with
    | none => exact ih acc
    | some a =>
      show List.foldl _ (maxStep acc a) tl
        = List.foldl maxStep acc (a :: List.filterMap normalizeAmountToken tl)
      rw [List.foldl_cons]
      exact ih (maxStep acc a)

theorem maxStep_isSome (acc : Option ℚ) (a : ℚ) : (maxStep acc a).isSome = true := by
  cases acc with
  | none => rfl
  | some m =>
    rw [maxStep]
    split <;> rfl

theorem maxfold_some (vals : List ℚ) :
    ∀ m : ℚ, (vals.foldl maxStep (some m)).isSome = true := by
  induction vals with
  | nil => intro m; rfl
  | cons a tl ih =>
    intro m
    rw [List.foldl_cons, maxStep]
    split <;> exact ih _

theorem maxfold_none_iff (vals : List ℚ) (acc : Option ℚ) :
    vals.foldl maxStep acc = none ↔ (vals = [] ∧ acc = none) := by
  cases vals with
  | nil => simp
  | cons a tl =>
    rw [List.foldl_cons]
    constructor
    · intro h
      obtain ⟨y, hy⟩ := Option.isSome_iff_exists.mp (maxStep_isSome acc a)
      rw [hy] at h
      have hsome := maxfold_some tl y
      rw [h] at hsome
      cases hsome
    · rintro ⟨h, -⟩; cases h

theorem maxfold_spec (vals : List ℚ) :
    ∀ (acc : Option ℚ) (m : ℚ), vals.foldl maxStep acc = some m →
      (acc = some m ∨ m ∈ vals) ∧ (∀ v ∈ vals, v ≤ m) ∧ (∀ x, acc = some x → x ≤ m) := by
  induction vals with
  | nil =>
    intro acc m h
    rw [List.foldl_nil] at h
    refine ⟨Or.inl h, fun v hv => absurd hv (List.not_mem_nil v), ?_⟩
    intro x hx
    rw [h] at hx
    cases hx
    exact le_refl _
  | cons a tl ih =>
    intro acc m h
    rw [List.foldl_cons] at h
    obtain ⟨h1, h2, h3⟩ := ih (maxStep acc a) m h
    have hstep : ∀ y, maxStep acc a = some y → a ≤ y ∧ (∀ x, acc = some x → x ≤ y) := by
      intro y hy
      cases hacc : acc with
      | none =>
        rw [hacc] at hy
        cases hy
        exact ⟨le_refl _, fun x hx => by cases hx⟩
      | some x0 =>
        rw [hacc, maxStep] at hy
        by_cases hx : x0 < a
        · rw [if_pos hx] at hy
          cases hy
          refine ⟨le_refl _, ?_⟩
          intro x hx0
          cases hx0
          exact le_of_lt hx
        · rw [if_neg hx] at hy
          cases hy
          refine ⟨le_of_not_lt hx, ?_⟩
          intro x hx0
          cases hx0
          exact le_refl _
    have hy : ∃ y, maxStep acc a = some y := by
      have := maxStep_isSome acc a
      cases hms : maxStep acc a with
      | none => rw [hms] at this; cases this
      | some y => exact ⟨y, rfl⟩
    obtain ⟨y, hms⟩ := hy
    obtain ⟨hay, hxy⟩ := hstep y hms
    have hym : y ≤ m := h3 y hms
    constructor
    · rcases h1 with h1 | h1
      · rw [hms] at h1
        cases h1
        -- y = m; decide whether m came from acc or is a
        cases hacc : acc with
        | none =>
          rw [hacc] at hms
          cases hms
          exact Or.inr (List.mem_cons_self _ _)
        | some x0 =>
          rw [hacc, maxStep] at hms
          by_cases hx : x0 < a
          · rw [if_pos hx] at hms
            cases hms
            exact Or.inr (List.mem_cons_self _ _)
          · rw [if_neg hx] at hms
            cases hms
            exact Or.inl rfl
      · exact Or.inr (List.mem_cons_of_mem a h1)
    · refine ⟨?_, ?_⟩
      · intro v hv
        rcases List.mem_cons.mp hv with hv | hv
        · subst hv
          exact le_trans hay hym
        · exact h2 v hv
      · intro x hx
        exact le_trans (hxy x hx) hym

theorem if_some_imp {α : Type} {b : Prop} [Decidable b] {o : Option α} {x : α}
    (h : (if b then o else none) = some x) : o = some x := by
  split at h
  · exact h
  · cases h

theorem takeWhile_empty_of_nodigit {cs : Str} (h : ∀ c ∈ cs, c.isDigit = false) :
    (cs.takeWhile Char.isDigit).isEmpty = true := by
  cases cs with
  | nil => rfl
  | cons c t =>
    rw [List.takeWhile_cons, if_neg]
    · rfl
    · rw [h c (List.mem_cons_self c t)]
      exact Bool.false_ne_true

theorem matchGroup_none_of_nodigit {cs : Str} (h : ∀ c ∈ cs, c.isDigit = false) :
    matchGroup cs = none := by
  rw [matchGroup]
  simp only [takeWhile_empty_of_nodigit h, if_true]

theorem tryWithPrefixLen_none_of_nodigit {cs : Str} (n : ℕ)
    (h : ∀ c ∈ cs, c.isDigit = false) : tryWithPrefixLen n cs = none := by
  rw [tryWithPrefixLen]
  have hsub : ∀ c ∈ (cs.drop n).dropWhile isWs, c ∈ cs := fun c hc =>
    (List.drop_sublist n cs).subset ((List.dropWhile_sublist isWs).subset hc)
  rw [matchGroup_none_of_nodigit fun c hc => h c (hsub c hc)]

theorem tryHere_none_of_nodigit {cs : Str} (h : ∀ c ∈ cs, c.isDigit = false) :
    tryHere cs = none := by
  rw [tryHere]
  rw [tryWithPrefixLen_none_of_nodigit 1 h, tryWithPrefixLen_none_of_nodigit 3 h]
  rw [tryWithPrefixLen_none_of_nodigit 4 h, tryWithPrefixLen_none_of_nodigit 0 h]
  simp only [ite_self]

theorem scanAux_nil_of_nodigit :
    ∀ (fuel : ℕ) (cs : Str), cs.any Char.isDigit = false → scanAux fuel cs = [] := by
  intro fuel
  induction fuel with
  | zero => intro cs _; rfl
  | succ fuel ih =>
    intro cs hany
    cases cs with
    | nil => rfl
    | cons c t =>
      rw [List.any_cons, Bool.or_eq_false_iff] at hany
      have hnone : tryHere (c :: t) = none := by
        apply tryHere_none_of_nodigit
        intro x hx
        rcases List.mem_cons.mp hx with hx | hx
        · subst hx; exact hany.1
        · simpa using (List.any_eq_false.mp hany.2) x hx
      rw [scanAux, hnone]
      exact ih t hany.2

theorem dropWhile_cons_of_digit {d : Char} {t : Str} (hd : d.isDigit = true) :
    (d :: t).dropWhile isWs = d :: t := by
  rw [List.dropWhile_cons, if_neg]
  rw [not_isWs_of_isDigit hd]
  exact Bool.false_ne_true

theorem matchGroup_some_of_digit {d : Char} {t : Str} (hd : d.isDigit = true) :
    ∃ x, matchGroup (d :: t) = some x := by
  rw [matchGroup]
  rw [List.takeWhile_cons, if_pos hd]
  exact ⟨_, rfl⟩

theorem tryWithPrefixLen0_some_of_digit {d : Char} {t : Str} (hd : d.isDigit = true) :
    ∃ x, tryWithPrefixLen 0 (d :: t) = some x := by
  rw [tryWithPrefixLen, List.drop_zero, dropWhile_cons_of_digit hd]
  obtain ⟨x, hx⟩ := matchGroup_some_of_digit (t := t) hd
  rw [hx]
  exact ⟨_, rfl⟩

theorem tryHere_none_imp {cs : Str} (h : tryHere cs = none) :
    tryWithPrefixLen 0 cs = none := by
  rw [tryHere] at h
  cases h1 : (if ciHasPrefixL (strL "€") cs then tryWithPrefixLen 1 cs else none) with
  | some x => rw [h1] at h; cases h
  | none =>
    rw [h1] at h
    cases h2 : (if ciHasPrefixL (strL "eur") cs then tryWithPrefixLen 3 cs else none) with
    | some x => rw [h2] at h; cases h
    | none =>
      rw [h2] at h
      cases h3 : (if ciHasPrefixL (strL "euro") cs then tryWithPrefixLen 4 cs else none) with
      | some x => rw [h3] at h; cases h
      | none => rw [h3] at h; exact h

theorem tryHere_some_of_digit {d : Char} {t : Str} (hd : d.isDigit = true) :
    ∃ x, tryHere (d :: t) = some x := by
  cases h : tryHere (d :: t) with
  | some x => exact ⟨x, rfl⟩
  | none =>
    obtain ⟨x, hx⟩ := tryWithPrefixLen0_some_of_digit (t := t) hd
    rw [tryHere_none_imp h] at hx
    cases hx

theorem tryWithPrefixLen_token {n : ℕ} {cs : Str} {p : Str × Str}
    (h : tryWithPrefixLen n cs = some p) :
    ∃ d t, p.1 = d :: t ∧ d.isDigit = true := by
  rw [tryWithPrefixLen] at h
  cases hmg : matchGroup ((cs.drop n).dropWhile isWs) with
  | none => rw [hmg] at h; cases h
  | some q =>
    rw [hmg] at h
    cases h
    rw [matchGroup] at hmg
    by_cases hrun : (((cs.drop n).dropWhile isWs).takeWhile Char.isDigit).isEmpty
    · rw [if_pos hrun] at hmg; cases hmg
    · rw [if_neg hrun] at hmg
      cases hq : ((cs.drop n).dropWhile isWs).takeWhile Char.isDigit with
      | nil => rw [hq] at hrun; exact absurd rfl hrun
      | cons d r =>
        rw [hq] at hmg
        cases hmg
        exact ⟨d, _, rfl, takeWhile_head hq⟩

theorem tryHere_token {cs : Str} {p : Str × Str} (h : tryHere cs = some p) :
    ∃ d t, p.1 = d :: t ∧ d.isDigit = true := by
  rw [tryHere] at h
  cases h1 : (if ciHasPrefixL (strL "€") cs then tryWithPrefixLen 1 cs else none) with
  | some x =>
    rw [h1] at h
    cases h
    exact tryWithPrefixLen_token (if_some_imp h1)
  | none =>
    rw [h1] at h
    cases h2 : (if ciHasPrefixL (strL "eur") cs then tryWithPrefixLen 3 cs else none) with
    | some x =>
      rw [h2] at h
      cases h
      exact tryWithPrefixLen_token (if_some_imp h2)
    | none =>
      rw [h2] at h
      cases h3 : (if ciHasPrefixL (strL "euro") cs then tryWithPrefixLen 4 cs else none) with
      | some x =>
        rw [h3] at h
        cases h
        exact tryWithPrefixLen_token (if_some_imp h3)
      | none =>
        rw [h3] at h
        exact tryWithPrefixLen_token h

theorem scanAux_digit_token :
    ∀ (fuel : ℕ) (cs : Str), cs.length ≤ fuel → cs.any Char.isDigit = true →
      ∃ tok ∈ scanAux fuel cs, ∃ d t, tok = d :: t ∧ d.isDigit = true := by
  intro fuel
  induction fuel with
  | zero =>
    intro cs hlen hany
    rw [Nat.le_zero, List.length_eq_zero] at hlen
    subst hlen
    cases hany
  | succ fuel ih =>
    intro cs hlen hany
    cases cs with
    | nil => cases hany
    | cons c t =>
      cases htry : tryHere (c :: t) with
      | some p =>
        obtain ⟨tok, rest⟩ := p
        rw [scanAux, htry]
        obtain ⟨d, t', hd⟩ := tryHere_token htry
        exact ⟨tok, List.mem_cons_self _ _, d, t', hd⟩
      | none =>
        have hc : c.isDigit = false := by
          cases hcd : c.isDigit with
          | false => rfl
          | true =>
            obtain ⟨x, hx⟩ := tryHere_some_of_digit (t := t) hcd
            rw [htry] at hx
            cases hx
        rw [List.any_cons, hc, Bool.false_or] at hany
        rw [scanAux, htry]
        exact ih t (by simpa using Nat.le_of_succ_le_succ (by simpa using hlen)) hany

theorem removeEurWords_cons {d : Char} {t : Str} (h : lowerChar d ≠ 'e') :
    removeEurWords (d :: t) = d :: removeEurWords t := by
  cases t with
  | nil => rfl
  | cons c2 t2 =>
    cases t2 with
    | nil => rfl
    | cons c3 t3 =>
      rw [removeEurWords, if_neg]
      exact fun hc => h hc.1

theorem removeThousandDots_cons {d : Char} {t : Str} (h : d ≠ '.') :
    removeThousandDots (d :: t) = d :: removeThousandDots t := by
  rw [removeThousandDots, if_neg]
  exact fun hc => h hc.1

theorem parseSign_cons {d : Char} {t : Str} (h1 : d ≠ '-') (h2 : d ≠ '+') :
    parseSign (d :: t) = (false, d :: t) := by
  rw [parseSign, if_neg h1, if_neg h2]

theorem parseFloatQ_some_of_digit {d : Char} {t : Str} (hd : d.isDigit = true) :
    ∃ q, parseFloatQ (d :: t) = some q := by
  rw [parseFloatQ, parseFloatParts]
  simp only [dropWhile_cons_of_digit hd,
    parseSign_cons (ne_of_isDigit '-' (by decide) hd) (ne_of_isDigit '+' (by decide) hd)]
  rw [List.takeWhile_cons, if_pos hd]
  simp only [List.isEmpty_cons, Bool.false_and, Bool.false_eq_true, if_false]
  exact ⟨_, rfl⟩

theorem cleanAmountToken_cons {d : Char} {t : Str} (hd : d.isDigit = true) :
    cleanAmountToken (d :: t) = d :: cleanAmountToken t := by
  rw [cleanAmountToken, cleanAmountToken]
  rw [List.filter_cons_of_pos]
  swap
  · simp only [Bool.not_eq_true', decide_eq_false_iff_not]
    exact ne_of_isDigit '€' (by decide) hd
  rw [removeEurWords_cons]
  swap
  · rw [lowerChar_digit hd]
    exact ne_of_isDigit 'e' (by decide) hd
  rw [List.filter_cons_of_pos]
  swap
  · simp only [Bool.not_eq_true']
    exact not_isWs_of_isDigit hd
  rw [removeThousandDots_cons (ne_of_isDigit '.' (by decide) hd)]
  rw [List.map_cons, if_neg (ne_of_isDigit ',' (by decide) hd)]
  rw [List.filter_cons_of_pos]
  · rw [hd, Bool.true_or, Bool.true_or]

theorem doubleFinite_pos {q : ℚ} (h0 : 0 ≤ q) (h : q < (2 : ℚ) ^ 1024 - 2 ^ 970) :
    doubleFinite q = true := by
  rw [doubleFinite, abs_of_nonneg h0]
  exact decide_eq_true h

theorem doubleFinite_overflow {q : ℚ} (h : (2 : ℚ) ^ 1024 - 2 ^ 970 ≤ |q|) :
    doubleFinite q = false := by
  rw [doubleFinite]
  exact decide_eq_false (not_lt.mpr h)

theorem totals_fold (items : List AiItem) :
    ∀ (f : Category → ℚ) (c : Category),
      (items.foldl totalsStep f) c = f c + catItemsSum items c := by
  induction items with
  | nil =>
    intro f c
    simp [catItemsSum]
  | cons it tl ih =>
    intro f c
    rw [List.foldl_cons]
    rw [ih (totalsStep f it) c]
    have hsum : catItemsSum (it :: tl) c
        = (if it.categoria = some c then it.importo_euro.getD 0 else 0) + catItemsSum tl c := by
      rw [catItemsSum, catItemsSum, List.map_cons, List.sum_cons]
    rw [hsum]
    cases hcat : it.categoria with
    | none =>
      rw [totalsStep, hcat]
      simp
    | some cat =>
      cases hval : it.importo_euro with
      | none =>
        rw [totalsStep, hcat, hval]
        simp
      | some v =>
        rw [totalsStep, hcat, hval]
        simp only [jsIsFinite, if_true]
        by_cases hc : c = cat
        · subst hc
          simp [hcat, hval]
          ring
        · rw [if_neg hc]
          have hne : ¬ (some cat = some c) := fun h => hc (by cases h; rfl)
          rw [if_neg hne]
          ring

theorem foldl_add_eq_sum (l : List ℚ) : ∀ a : ℚ, l.foldl (fun x y => x + y) a = a + l.sum := by
  induction l with
  | nil => intro a; simp
  | cons b tl ih =>
    intro a
    rw [List.foldl_cons, List.sum_cons, ih (a + b)]
    ring

theorem sumTotals_eq (t : Category → ℚ) : sumTotals t = (CATEGORY_VALUES.map t).sum := by
  rw [sumTotals]
  simp only [jsIsFinite, if_true]
  rw [foldl_add_eq_sum, zero_add]

theorem mergeTotals_apply (e : Category → Option ℚ) (comp : Category → ℚ) (c : Category) :
    mergeTotals e comp c = comp c := by
  rw [mergeTotals]
  simp [jsIsFinite]

theorem reconcile_totali (st : AiStructured) :
    (reconcileSummary st).per_source_summary.totali_per_categoria
      = some (fun c => some
          (mergeTotals (st.per_source_summary.totali_per_categoria.getD (fun _ => none))
            (computeTotalsFromItems st.items) c)) := rfl

theorem reconcile_stima (st : AiStructured) :
    (reconcileSummary st).per_source_summary.stima_totale_documento
      = some (sumTotals
          (mergeTotals (st.per_source_summary.totali_per_categoria.getD (fun _ => none))
            (computeTotalsFromItems st.items))) := rfl

theorem toFixed2_exact (q : ℚ) (n : ℤ) (h : (n : ℚ) = 100 * q) : toFixed2 q = q := by
  rw [toFixed2, ← h, round_intCast]
  field_simp
  linarith [h]

theorem clamp_round_id (q : ℚ) (h0 : 0 ≤ q) (h1 : q ≤ 1) (he : toFixed2 q = q) :
    min 1 (max 0 (toFixed2 q)) = q := by
  rw [he, max_eq_right h0, min_eq_right h1]

theorem processLine_skip {raw : Str} (h : (normalizeSpaces raw).length < 3) :
    processLine raw = none := by
  rw [processLine, if_pos]
  rw [decide_eq_true h, Bool.or_true]

theorem processLine_descr {raw : Str} (h : ¬ (normalizeSpaces raw).length < 3) :
    (processLine raw).map NormalizedItem.descrizione_originale = some (normalizeSpaces raw) := by
  rw [processLine, if_neg]
  · rfl
  · have hne : (normalizeSpaces raw).isEmpty = false := by
      cases he : (normalizeSpaces raw) with
      | nil => rw [he] at h; exact absurd (by decide) h
      | cons a l => rfl
    simp [hne, h]

/-- Claim C1: for every input line, `findLikelyCategory` returns a hit count
`hits ≥ 0`, the returned category is `unknown` if and only if `hits = 0`, and
for every line in which no (nonempty) normalized dictionary keyword occurs as
a substring of the normalized line, the result is `(unknown, 0)`. -/
theorem claim_C1_unknown_iff_zero_hits : ∀ line : Str,
    0 ≤ (findLikelyCategory line).2
    ∧ ((findLikelyCategory line).1 = Category.unknown ↔ (findLikelyCategory line).2 = 0)
    ∧ ((∀ c ∈ CATEGORY_VALUES, ∀ kw ∈ CATEGORY_KEYWORDS c,
          normalizeForMatching kw ≠ [] →
          strIncludes (normalizeForMatching line) (normalizeForMatching kw) = false) →
        findLikelyCategory line = (Category.unknown, 0)) := by
  intro line
  refine ⟨Nat.zero_le _, ?_, ?_⟩
  · simp only [findLikelyCategory]
    by_cases hemp : (normalizeForMatching line).isEmpty
    · rw [if_pos hemp]
      simp
    · rw [if_neg hemp]
      by_cases hpos :
          0 < (CATEGORY_VALUES.foldl (bestStep (normalizeForMatching line)) (Category.unknown, 0)).2
      · rw [if_pos hpos]
        have hfind := foldBest_find (normalizeForMatching line) CATEGORY_VALUES
          (Category.unknown, 0) hpos
        have hp := List.find?_some hfind
        constructor
        · intro hcat
          rw [hcat] at hp
          have h0 : catHits (normalizeForMatching line) Category.unknown = 0 := rfl
          rw [h0] at hp
          have h02 : (0 : ℕ)
              = (CATEGORY_VALUES.foldl (bestStep (normalizeForMatching line))
                  (Category.unknown, 0)).2 := by simpa using hp
          omega
        · intro h2
          exact absurd hpos (by omega)
      · rw [if_neg hpos]
        have h2 : (CATEGORY_VALUES.foldl (bestStep (normalizeForMatching line))
            (Category.unknown, 0)).2 = 0 := by omega
        simp [h2]
  · intro hkw
    simp only [findLikelyCategory]
    by_cases hemp : (normalizeForMatching line).isEmpty
    · rw [if_pos hemp]
    · rw [if_neg hemp]
      have hz : ∀ c ∈ CATEGORY_VALUES,
          catHits (normalizeForMatching line) c ≤ (Category.unknown, (0 : ℕ)).2 := by
        intro c hc
        have h0 := countKeywordHits_zero (normalizeForMatching line) (CATEGORY_KEYWORDS c)
          (hkw c hc)
        rw [catHits, h0]
      rw [foldBest_const _ _ _ hz]
      rfl

/-- Witness for the keyword-free clause of claim C1: the line `"zzzz"` contains no
dictionary keyword, and classification returns `(unknown, 0)`. -/
theorem claim_C1_witness :
    (∀ c ∈ CATEGORY_VALUES, ∀ kw ∈ CATEGORY_KEYWORDS c,
        normalizeForMatching kw ≠ [] →
        strIncludes (normalizeForMatching (strL "zzzz")) (normalizeForMatching kw) = false)
    ∧ findLikelyCategory (strL "zzzz") = (Category.unknown, 0) := by
  have h : ∀ c ∈ CATEGORY_VALUES, ∀ kw ∈ CATEGORY_KEYWORDS c,
      normalizeForMatching kw ≠ [] →
      strIncludes (normalizeForMatching (strL "zzzz")) (normalizeForMatching kw) = false := by
    decide
  exact ⟨h, (claim_C1_unknown_iff_zero_hits (strL "zzzz")).2.2 h⟩

/-- Claim C7: on equal maximal hit counts the earliest category in the fixed
enumeration order wins: whenever the result has positive hits, the returned
category is the first element of `CATEGORY_VALUES` whose hit count equals the
returned (maximal) hit count. -/
theorem claim_C7_first_wins_tiebreak : ∀ line : Str,
    0 < (findLikelyCategory line).2 →
    CATEGORY_VALUES.find?
        (fun c => catHits (normalizeForMatching line) c == (findLikelyCategory line).2)
      = some (findLikelyCategory line).1 := by
  intro line hpos
  simp only [findLikelyCategory] at hpos ⊢
  by_cases hemp : (normalizeForMatching line).isEmpty
  · rw [if_pos hemp] at hpos
    simp at hpos
  · rw [if_neg hemp] at hpos ⊢
    have hpos2 :
        0 < (CATEGORY_VALUES.foldl (bestStep (normalizeForMatching line)) (Category.unknown, 0)).2 :=
      hpos
    rw [if_pos hpos2]
    exact foldBest_find (normalizeForMatching line) CATEGORY_VALUES (Category.unknown, 0) hpos2

/-- Witness for claim C7: on `"taglio cavi"` the demolition and electrical
categories tie at one hit each; the earlier enumerated demolition category is
returned. -/
theorem claim_C7_witness :
    catHits (normalizeForMatching (strL "taglio cavi")) Category.demolizioni_smaltimenti = 1
    ∧ catHits (normalizeForMatching (strL "taglio cavi")) Category.impianto_elettrico = 1
    ∧ findLikelyCategory (strL "taglio cavi") = (Category.demolizioni_smaltimenti, 1)
    ∧ CATEGORY_VALUES.find?
        (fun c => catHits (normalizeForMatching (strL "taglio cavi")) c
          == (findLikelyCategory (strL "taglio cavi")).2)
      = some (findLikelyCategory (strL "taglio cavi")).1 := by
  refine ⟨by decide, by decide, by decide, ?_⟩
  exact claim_C7_first_wins_tiebreak (strL "taglio cavi") (by decide)

/-- Claim C6: `normalizeLines` keeps exactly the lines whose
whitespace-normalized form has length at least 3 (hence is nonempty), in
input order, one item per surviving line, and maps the empty input to the
empty output without error. -/
theorem claim_C6_one_item_per_surviving_line : ∀ lines : List Str,
    (normalizeLines lines).map NormalizedItem.descrizione_originale
        = (lines.map normalizeSpaces).filter (fun c => decide (3 ≤ c.length))
    ∧ normalizeLines [] = [] := by
  intro lines
  refine ⟨?_, rfl⟩
  induction lines with
  | nil => rfl
  | cons l tl ih =>
    simp only [normalizeLines] at ih ⊢
    rw [List.filterMap_cons, List.map_cons, List.filter_cons]
    by_cases h : (normalizeSpaces l).length < 3
    · rw [processLine_skip h]
      have hd : decide (3 ≤ (normalizeSpaces l).length) = false := decide_eq_false (by omega)
      rw [hd]
      simpa using ih
    · have hdescr := processLine_descr h
      cases hp : processLine l with
      | none => rw [hp] at hdescr; cases hdescr
      | some b =>
        rw [hp] at hdescr
        have hb : b.descrizione_originale = normalizeSpaces l := by simpa using hdescr
        have hd : decide (3 ≤ (normalizeSpaces l).length) = true := decide_eq_true (by omega)
        rw [hd]
        show (b :: List.filterMap processLine tl).map NormalizedItem.descrizione_originale
          = normalizeSpaces l :: (tl.map normalizeSpaces).filter (fun c => decide (3 ≤ c.length))
        rw [List.map_cons, hb, ih]

/-- Claim C3 (failing input): the line `"Fornitura sanitari completa"`
mentions `fornitura` (as a substring, and with no `marca`/`modello`), yet the
emitted item does NOT carry the `marca_materiale_mancante` flag, because the
source regex `/\bforniture?\b/` can only match the whole words `fornitur` or
`forniture`, never `fornitura`.  This contradicts the spec rule (and the
prompt documentation in the route itself) that the flag fires on `fornitura`. -/
theorem claim_C3_fornitura_flag_not_emitted :
    (normalizeLines [strL "Fornitura sanitari completa"]).map
        (fun it => it.flags.contains (strL "marca_materiale_mancante")) = [false]
    ∧ strIncludes (lowerStr (strL "Fornitura sanitari completa")) (strL "fornitura") = true
    ∧ marcaModelloRegexTest (lowerStr (strL "Fornitura sanitari completa")) = false
    ∧ fornitureRegexTest (lowerStr (strL "Fornitura sanitari completa")) = false
    ∧ fornitureRegexTest (strL "forniture varie") = true := by
  refine ⟨?_, by decide, by decide, by decide, by decide⟩
  decide

/-- Claim C5: `computeConfidence` equals the documented formula
`clamp(round2(0.5 + min(0.3, hits*0.15) + (hasAmount ? 0.2 : 0)))`; moreover
the clamping and rounding are the identity on every reachable score, and the
two boundary examples evaluate to 0.5 and 1. -/
theorem claim_C5_confidence_formula : ∀ (keywordHits : ℕ) (hasAmount : Bool),
    computeConfidence keywordHits hasAmount
        = min 1 (max 0 (toFixed2
            (0.5 + min 0.3 ((keywordHits : ℚ) * 0.15) + (if hasAmount then 0.2 else 0))))
    ∧ computeConfidence keywordHits hasAmount
        = 0.5 + min 0.3 ((keywordHits : ℚ) * 0.15) + (if hasAmount then 0.2 else 0)
    ∧ computeConfidence 0 false = 0.5
    ∧ computeConfidence 10 true = 1 := by
  have hgen : ∀ (kh : ℕ) (ha : Bool),
      computeConfidence kh ha
        = 0.5 + min 0.3 ((kh : ℚ) * 0.15) + (if ha then 0.2 else 0) := by
    intro kh ha
    rw [computeConfidence]
    rcases kh with _ | _ | n
    · have hmin : min (0.3 : ℚ) (((0 : ℕ) : ℚ) * 0.15) = 0 := by norm_num
      rw [hmin]
      cases ha
      · rw [if_neg (by simp)]
        rw [clamp_round_id _ (by norm_num) (by norm_num) (toFixed2_exact _ 50 (by norm_num))]
      · rw [if_pos rfl]
        rw [clamp_round_id _ (by norm_num) (by norm_num) (toFixed2_exact _ 70 (by norm_num))]
    · have hmin : min (0.3 : ℚ) (((1 : ℕ) : ℚ) * 0.15) = 0.15 := by norm_num
      rw [hmin]
      cases ha
      · rw [if_neg (by simp)]
        rw [clamp_round_id _ (by norm_num) (by norm_num) (toFixed2_exact _ 65 (by norm_num))]
      · rw [if_pos rfl]
        rw [clamp_round_id _ (by norm_num) (by norm_num) (toFixed2_exact _ 85 (by norm_num))]
    · have hmin : min (0.3 : ℚ) (((n + 2 : ℕ) : ℚ) * 0.15) = 0.3 := by
        apply min_eq_left
        push_cast
        have hn : (0 : ℚ) ≤ (n : ℚ) := Nat.cast_nonneg n
        nlinarith
      rw [hmin]
      cases ha
      · rw [if_neg (by simp)]
        rw [clamp_round_id _ (by norm_num) (by norm_num) (toFixed2_exact _ 80 (by norm_num))]
      · rw [if_pos rfl]
        rw [clamp_round_id _ (by norm_num) (by norm_num) (toFixed2_exact _ 100 (by norm_num))]
  intro keywordHits hasAmount
  refine ⟨rfl, hgen keywordHits hasAmount, ?_, ?_⟩
  · rw [hgen 0 false]
    norm_num
  · rw [hgen 10 true]
    norm_num

theorem normalizeAmountToken_eval (raw : Str) (neg : Bool) (ip fp : Str) (q : ℚ)
    (h1 : parseFloatParts (cleanAmountToken raw) = some (neg, ip, fp))
    (h2 : partsVal neg ip fp = q) (h3 : doubleFinite q = true) :
    normalizeAmountToken raw = some q := by
  rw [normalizeAmountToken, parseFloatQ, h1]
  show (if doubleFinite (partsVal neg ip fp) then some (partsVal neg ip fp) else none) = some q
  rw [h2, if_pos h3]

theorem normalizeAmountToken_reject (raw : Str) (neg : Bool) (ip fp : Str) (q : ℚ)
    (h1 : parseFloatParts (cleanAmountToken raw) = some (neg, ip, fp))
    (h2 : partsVal neg ip fp = q) (h3 : doubleFinite q = false) :
    normalizeAmountToken raw = none := by
  rw [normalizeAmountToken, parseFloatQ, h1]
  show (if doubleFinite (partsVal neg ip fp) then some (partsVal neg ip fp) else none) = none
  rw [h2, if_neg]
  rw [h3]
  exact Bool.false_ne_true

theorem partsVal_pos (ip fp : Str) :
    partsVal false ip fp
      = (digitsToNat ip : ℚ) + (digitsToNat fp : ℚ) / ((10 : ℚ) ^ fp.length) := by
  rw [partsVal, if_neg Bool.false_ne_true]

theorem norm_token_800 : normalizeAmountToken (strL "800") = some 800 := by
  apply normalizeAmountToken_eval _ false (strL "800") []
  · decide
  · rw [partsVal_pos]
    rw [show digitsToNat (strL "800") = 800 from by decide]
    norm_num [digitsToNat]
  · exact doubleFinite_pos (by norm_num) (by norm_num)

theorem norm_token_1250 : normalizeAmountToken (strL "1.250,00") = some 1250 := by
  apply normalizeAmountToken_eval _ false (strL "1250") (strL "00")
  · decide
  · rw [partsVal_pos]
    rw [show digitsToNat (strL "1250") = 1250 from by decide]
    rw [show digitsToNat (strL "00") = 0 from by decide]
    norm_num
  · exact doubleFinite_pos (by norm_num) (by norm_num)

theorem extract_800 :
    extractEuroAmount (strL "Smaltimento macerie e detriti - 800€") = some 800 := by
  have htoks : scanTokens (strL "Smaltimento macerie e detriti - 800€") = [strL "800"] := by
    decide
  simp only [extractEuroAmount]
  rw [htoks, if_neg (by decide : ¬ ([strL "800"].isEmpty = true))]
  rw [List.foldl_cons, List.foldl_nil, norm_token_800]
  rfl

theorem extract_1250 :
    extractEuroAmount (strL "Fornitura sanitari € 1.250,00") = some 1250 := by
  have htoks : scanTokens (strL "Fornitura sanitari € 1.250,00") = [strL "1.250,00"] := by
    decide
  simp only [extractEuroAmount]
  rw [htoks, if_neg (by decide : ¬ ([strL "1.250,00"].isEmpty = true))]
  rw [List.foldl_cons, List.foldl_nil, norm_token_1250]
  rfl

theorem processLine_importo {raw : Str} (h : ¬ (normalizeSpaces raw).length < 3) :
    (processLine raw).map NormalizedItem.importo_euro
      = some (extractEuroAmount (normalizeSpaces raw)) := by
  rw [processLine, if_neg]
  · rfl
  · have hne : (normalizeSpaces raw).isEmpty = false := by
      cases he : (normalizeSpaces raw) with
      | nil => rw [he] at h; exact absurd (by decide) h
      | cons a l => rfl
    simp [hne, h]

/-- Claim C8: the line `"Smaltimento macerie e detriti - 800€"` is classified
as `demolizioni_smaltimenti` with amount `800.00`, and (since the disposal
root word `smaltiment` is present) without the `smaltimento_non_menzionato`
flag. -/
theorem claim_C8_smaltimento_line :
    (normalizeLines [strL "Smaltimento macerie e detriti - 800€"]).map
        NormalizedItem.categoria = [Category.demolizioni_smaltimenti]
    ∧ (normalizeLines [strL "Smaltimento macerie e detriti - 800€"]).map
        NormalizedItem.importo_euro = [some 800]
    ∧ (normalizeLines [strL "Smaltimento macerie e detriti - 800€"]).map
        (fun it => it.flags.contains (strL "smaltimento_non_menzionato")) = [false] := by
  refine ⟨by decide, ?_, by decide⟩
  have hns : normalizeSpaces (strL "Smaltimento macerie e detriti - 800€")
      = strL "Smaltimento macerie e detriti - 800€" := by decide
  have h3 : ¬ (normalizeSpaces (strL "Smaltimento macerie e detriti - 800€")).length < 3 := by
    decide
  have himp := processLine_importo h3
  cases hp : processLine (strL "Smaltimento macerie e detriti - 800€") with
  | none => rw [hp] at himp; cases himp
  | some b =>
    rw [hp] at himp
    have hb : b.importo_euro
        = extractEuroAmount (normalizeSpaces (strL "Smaltimento macerie e detriti - 800€")) := by
      simpa using himp
    simp only [normalizeLines, List.filterMap_cons, hp, List.filterMap_nil]
    rw [List.map_cons, List.map_nil]
    rw [hb, hns, extract_800]

/-- Claim C4: `extractEuroAmount` returns `none` exactly when no captured
numeric token of the amount regex normalizes to a value, and otherwise
returns the maximum of the normalized token values; on
`"Fornitura sanitari € 1.250,00"` it returns `1250.00` and on
`"nessun importo qui"` it returns `null`. -/
theorem claim_C4_extract_maximum : ∀ line : Str,
    (extractEuroAmount line = none
      ↔ (scanTokens line).filterMap normalizeAmountToken = [])
    ∧ (∀ m : ℚ, extractEuroAmount line = some m →
        m ∈ (scanTokens line).filterMap normalizeAmountToken
        ∧ ∀ v ∈ (scanTokens line).filterMap normalizeAmountToken, v ≤ m)
    ∧ extractEuroAmount (strL "Fornitura sanitari € 1.250,00") = some 1250
    ∧ extractEuroAmount (strL "nessun importo qui") = none := by
  intro line
  refine ⟨?_, ?_, extract_1250, by decide⟩
  · simp only [extractEuroAmount]
    by_cases he : (scanTokens line).isEmpty
    · rw [if_pos he]
      rw [List.isEmpty_iff] at he
      rw [he]
      simp
    · rw [if_neg he, foldTok_eq, maxfold_none_iff]
      simp
  · intro m hm
    simp only [extractEuroAmount] at hm
    by_cases he : (scanTokens line).isEmpty
    · rw [if_pos he] at hm
      cases hm
    · rw [if_neg he, foldTok_eq] at hm
      obtain ⟨h1, h2, -⟩ := maxfold_spec _ none m hm
      refine ⟨?_, h2⟩
      rcases h1 with h1 | h1
      · cases h1
      · exact h1

/-- Witness for the maximum clause of claim C4, instantiated at the concrete
thousands-separated example line. -/
theorem claim_C4_witness :
    (1250 : ℚ) ∈ (scanTokens (strL "Fornitura sanitari € 1.250,00")).filterMap
        normalizeAmountToken
    ∧ ∀ v ∈ (scanTokens (strL "Fornitura sanitari € 1.250,00")).filterMap
        normalizeAmountToken, v ≤ 1250 :=
  (claim_C4_extract_maximum (strL "Fornitura sanitari € 1.250,00")).2.1 1250
    (claim_C4_extract_maximum (strL "Fornitura sanitari € 1.250,00")).2.2.1

theorem scanAux_all_tokens :
    ∀ (fuel : ℕ) (cs : Str), ∀ tok ∈ scanAux fuel cs,
      ∃ d t, tok = d :: t ∧ d.isDigit = true := by
  intro fuel
  induction fuel with
  | zero => intro cs tok htok; cases htok
  | succ fuel ih =>
    intro cs tok htok
    cases cs with
    | nil => cases htok
    | cons c t =>
      cases htry : tryHere (c :: t) with
      | some p =>
        obtain ⟨tok0, rest⟩ := p
        rw [scanAux, htry] at htok
        rcases List.mem_cons.mp htok with h | h
        · subst h
          exact tryHere_token htry
        · exact ih rest tok h
      | none =>
        rw [scanAux, htry] at htok
        exact ih t tok htok

/-- Concrete digit-bearing line whose single regex token overflows the double
range: `1` followed by 103 thousands groups `.000`, which cleans to the
310-digit numeral `10^309`. -/
def hugeLine : Str := strL "1" ++ (List.replicate 103 (strL ".000")).flatten

/-- The cleaned numeral of the single token of `hugeLine`. -/
def hugeDigits : Str := strL "1" ++ (List.replicate 103 (strL "000")).flatten

theorem norm_token_huge : normalizeAmountToken hugeLine = none := by
  apply normalizeAmountToken_reject _ false hugeDigits [] ((10 : ℚ) ^ 309)
  · decide
  · rw [partsVal_pos]
    rw [show digitsToNat hugeDigits = 10 ^ 309 from by decide]
    norm_num [digitsToNat]
  · apply doubleFinite_overflow
    rw [abs_of_nonneg (by positivity)]
    norm_num

/-- Counterexample to claim C10 as stated: `hugeLine` contains a decimal
digit, its digit run is captured as one regex token, yet `extractEuroAmount`
returns `none`, because the token parses to `10^309`, beyond the finite
double range, and `Number.isFinite` rejects it. -/
theorem claim_C10_counterexample :
    hugeLine.any Char.isDigit = true
    ∧ scanTokens hugeLine = [hugeLine]
    ∧ extractEuroAmount hugeLine = none := by
  refine ⟨by decide, by decide, ?_⟩
  have htoks : scanTokens hugeLine = [hugeLine] := by decide
  simp only [extractEuroAmount]
  rw [htoks, if_neg (by decide : ¬ ([hugeLine].isEmpty = true))]
  rw [List.foldl_cons, List.foldl_nil, norm_token_huge]

/-- Claim C10 as amended: `extractEuroAmount` is non-null exactly when some
captured token of the amount regex normalizes to a finite number; a line
with no digit yields no token (hence null), every line with a digit yields
at least one captured token (the currency markers are optional, so any bare
digit run is a candidate), and every captured token parses to a number — so
null on a digit-bearing line occurs exactly when every captured token is
rejected by the finiteness check. -/
theorem claim_C10_amended_digit_tokens : ∀ line : Str,
    ((extractEuroAmount line).isSome = true
      ↔ ∃ tok ∈ scanTokens line, (normalizeAmountToken tok).isSome = true)
    ∧ (line.any Char.isDigit = false → extractEuroAmount line = none)
    ∧ (line.any Char.isDigit = true → scanTokens line ≠ [])
    ∧ (∀ tok ∈ scanTokens line, ∃ q, parseFloatQ (cleanAmountToken tok) = some q) := by
  intro line
  refine ⟨?_, ?_, ?_, ?_⟩
  · simp only [extractEuroAmount]
    by_cases he : (scanTokens line).isEmpty
    · rw [if_pos he]
      rw [List.isEmpty_iff] at he
      rw [he]
      simp
    · rw [if_neg he, foldTok_eq]
      constructor
      · intro hs
        have hnn : ((scanTokens line).filterMap normalizeAmountToken).foldl maxStep none
            ≠ none := by
          intro e
          rw [e] at hs
          cases hs
        have hvne : (scanTokens line).filterMap normalizeAmountToken ≠ [] := fun e =>
          hnn ((maxfold_none_iff _ none).mpr ⟨e, rfl⟩)
        cases hv : (scanTokens line).filterMap normalizeAmountToken with
        | nil => exact absurd hv hvne
        | cons q qs =>
          have hq : q ∈ (scanTokens line).filterMap normalizeAmountToken := by
            rw [hv]
            exact List.mem_cons_self _ _
          obtain ⟨tok, htok, hqt⟩ := List.mem_filterMap.mp hq
          exact ⟨tok, htok, by rw [hqt]; rfl⟩
      · rintro ⟨tok, htok, hsome⟩
        obtain ⟨q, hq⟩ := Option.isSome_iff_exists.mp hsome
        have hmem : q ∈ (scanTokens line).filterMap normalizeAmountToken :=
          List.mem_filterMap.mpr ⟨tok, htok, hq⟩
        have hvne : (scanTokens line).filterMap normalizeAmountToken ≠ [] := by
          intro e
          rw [e] at hmem
          cases hmem
        cases hfold : ((scanTokens line).filterMap normalizeAmountToken).foldl maxStep none with
        | none => exact absurd ((maxfold_none_iff _ _).mp hfold).1 hvne
        | some x => rfl
  · intro hany
    have hscan := scanAux_nil_of_nodigit line.length line hany
    simp only [extractEuroAmount, scanTokens]
    rw [hscan]
    rfl
  · intro hany
    obtain ⟨tok, htok, -⟩ := scanAux_digit_token line.length line (le_refl _) hany
    intro e
    rw [scanTokens] at e
    rw [e] at htok
    cases htok
  · intro tok htok
    obtain ⟨d, t, hshape, hd⟩ := scanAux_all_tokens line.length line tok htok
    subst hshape
    rw [cleanAmountToken_cons hd]
    exact parseFloatQ_some_of_digit hd

/-- Witness for the amended claim C10, discharging its hypotheses at
concrete inputs: a digit-free line maps to null, a digit-bearing line yields
a token, and a concrete captured token parses. -/
theorem claim_C10_witness :
    extractEuroAmount (strL "solo testo") = none
    ∧ scanTokens (strL "anno 2024") ≠ []
    ∧ ∃ q, parseFloatQ (cleanAmountToken (strL "202")) = some q :=
  ⟨(claim_C10_amended_digit_tokens (strL "solo testo")).2.1 (by decide),
   (claim_C10_amended_digit_tokens (strL "anno 2024")).2.2.1 (by decide),
   (claim_C10_amended_digit_tokens (strL "anno 2024")).2.2.2 (strL "202") (by decide)⟩

/-- Claim C2: after reconciliation, the document grand total equals the sum
of the reconciled per-category totals, and every per-category total equals
the sum of the item amounts of that category (null amounts contributing 0),
regardless of the externally supplied totals. -/
theorem claim_C2_reconcile_invariant : ∀ st : AiStructured,
    (∀ it ∈ st.items, it.categoria.isSome = true) →
    (reconcileSummary st).per_source_summary.stima_totale_documento
        = some ((CATEGORY_VALUES.map
            (summaryTotal (reconcileSummary st).per_source_summary)).sum)
    ∧ ∀ c : Category,
        summaryTotal (reconcileSummary st).per_source_summary c = catItemsSum st.items c := by
  intro st _hcat
  have hcomp : ∀ c : Category, computeTotalsFromItems st.items c = catItemsSum st.items c := by
    intro c
    simp only [computeTotalsFromItems]
    rw [totals_fold]
    simp [makeEmptyTotals]
  have hsumT : ∀ c : Category,
      summaryTotal (reconcileSummary st).per_source_summary c = catItemsSum st.items c := by
    intro c
    simp only [summaryTotal, reconcile_totali st, Option.getD_some, mergeTotals_apply]
    exact hcomp c
  refine ⟨?_, hsumT⟩
  rw [reconcile_stima st]
  congr 1
  rw [sumTotals_eq]
  apply congrArg List.sum
  apply List.map_congr_left
  intro c _hc
  rw [mergeTotals_apply, hcomp c, hsumT c]

/-- Concrete input for the claim C2 witness: two gas items of 500 and 300
euro, one item with a null amount, and no externally supplied summary
fields. -/
def sampleStructured : AiStructured :=
  { items :=
      [ { descrizione_originale := none, categoria := some Category.gas
        , importo_euro := some 500, flags := none }
      , { descrizione_originale := none, categoria := some Category.gas
        , importo_euro := some 300, flags := none }
      , { descrizione_originale := none, categoria := some Category.porte_interne
        , importo_euro := none, flags := none } ]
  , per_source_summary :=
      { totali_per_categoria := none, inclusioni_evidenti := none
      , esclusioni_evidenti := none, checklist_mancanze := none
      , punti_ambigui := none, stima_totale_documento := none } }

/-- Witness for claim C2: on the sample input the reconciled gas total is the
sum 800 of its item amounts. -/
theorem claim_C2_witness :
    summaryTotal (reconcileSummary sampleStructured).per_source_summary Category.gas
        = catItemsSum sampleStructured.items Category.gas
    ∧ catItemsSum sampleStructured.items Category.gas = 800 := by
  constructor
  · exact (claim_C2_reconcile_invariant sampleStructured (by decide)).2 Category.gas
  · simp [catItemsSum, sampleStructured]
    norm_num

/-- Claim C9: reconciliation never overwrites a non-empty externally supplied
inclusion or exclusion bullet list — the keyword heuristics fill the lists
only when the supplied list is empty. -/
theorem claim_C9_bullets_preserved : ∀ st : AiStructured,
    (∀ l : List Str, st.per_source_summary.inclusioni_evidenti = some l → l ≠ [] →
      (reconcileSummary st).per_source_summary.inclusioni_evidenti = some l)
    ∧ (∀ l : List Str, st.per_source_summary.esclusioni_evidenti = some l → l ≠ [] →
      (reconcileSummary st).per_source_summary.esclusioni_evidenti = some l) := by
  intro st
  constructor
  · intro l hl hne
    show (enrichBulletsIfEmpty _ st.items).inclusioni_evidenti = some l
    rw [enrichBulletsIfEmpty]
    simp only [hl, Option.getD_some]
    rw [if_neg]
    intro he
    rw [List.isEmpty_iff] at he
    exact hne he
  · intro l hl hne
    show (enrichBulletsIfEmpty _ st.items).esclusioni_evidenti = some l
    rw [enrichBulletsIfEmpty]
    simp only [hl, Option.getD_some]
    rw [if_neg]
    intro he
    rw [List.isEmpty_iff] at he
    exact hne he

/-- Concrete input for the claim C9 witness: supplied non-empty bullet
lists. -/
def sampleBullets : AiStructured :=
  { items := []
  , per_source_summary :=
      { totali_per_categoria := none
      , inclusioni_evidenti := some [strL "sanitari inclusi"]
      , esclusioni_evidenti := some [strL "pavimenti esclusi"]
      , checklist_mancanze := none, punti_ambigui := none
      , stima_totale_documento := none } }

/-- Witness for claim C9: the supplied bullet lists survive reconciliation
unchanged. -/
theorem claim_C9_witness :
    (reconcileSummary sampleBullets).per_source_summary.inclusioni_evidenti
        = some [strL "sanitari inclusi"]
    ∧ (reconcileSummary sampleBullets).per_source_summary.esclusioni_evidenti
        = some [strL "pavimenti esclusi"] :=
  ⟨(claim_C9_bullets_preserved sampleBullets).1 _ rfl (by decide),
   (claim_C9_bullets_preserved sampleBullets).2 _ rfl (by decide)⟩

end Housewise
